import Mathlib

/-!
Verification of the Excel-merge pipeline of `src/コード.js`.

The file shallowly embeds the pure core of the script: filename-derived key
extraction (`extractJNumber`, `determineCategory`, the `/(\d+)unit/i` match),
per-document normalization (`processExcelFile` minus the external
upload/convert step), the per-folder dedup fold (`processFiles`), the
folder-level accumulation of `combineExcelSheets`, and the output-name
assembly of `createSpreadsheet`.

Modelling conventions:
- Spreadsheet cells are modelled as `String`.  `getValues()` can also yield
  `Date` objects, but every comparison the claims touch (`!==` against a
  string literal, `includes` of a file name) is false on a `Date`, and the
  date-reformat step rewrites only `Date` instances, so over string cells it
  is the identity; the embedding records that step as such.
- JS `undefined` from out-of-range array reads is modelled with `Option`
  (`List.get?`), and `parseInt` yielding `NaN` with `Option.none`; `NaN`
  comparisons are false on both sides, as in JS (`jsGt`).
- A JS `Map` is an insertion-ordered association list (`mapGet`/`mapSet`),
  a JS `Set` an insertion-ordered duplicate-free list (`addSet`).
- `Array.prototype.sort` is stable (ES2019) and the comparator
  `unitA - unitB` is a total preorder on the numeric key, so the sort is
  modelled by a stable insertion sort over the same key (`sortTokens`).
- The external world (folder selection, Drive, the upload/convert call, the
  clock, the created spreadsheet's URL) is the explicit `World` record; a
  document whose sheet is missing or whose conversion fails is a file with
  `raw = none`.
-/

/-- JS `toLowerCase` over the characters of a string. -/
def strToLower (s : String) : String := ⟨s.data.map Char.toLower⟩

/-- JS `trim`: strip leading and trailing whitespace. -/
def strTrim (s : String) : String :=
  ⟨((s.data.dropWhile Char.isWhitespace).reverse.dropWhile Char.isWhitespace).reverse⟩

/-- A character-list prefix test (used to embed JS regex/`includes` scans). -/
def charsPrefix : List Char → List Char → Bool
  | [], _ => true
  | _ :: _, [] => false
  | a :: as, b :: bs => a == b && charsPrefix as bs

/-- Substring containment over character lists. -/
def charsContains (needle : List Char) : List Char → Bool
  | [] => needle.isEmpty
  | c :: rest => charsPrefix needle (c :: rest) || charsContains needle rest

/-- JS `endsWith` as a reversed-prefix test over characters. -/
def strEndsWith (s suffix : String) : Bool :=
  charsPrefix suffix.data.reverse s.data.reverse

/-- JS `startsWith` over characters. -/
def strStartsWith (s pre : String) : Bool := charsPrefix pre.data s.data

/-- JS `String.prototype.includes` for the folder-name filter. -/
def strContains (s sub : String) : Bool := charsContains sub.data s.data

/-- JS `s.substring(0, n)` (filenames in the modelled domain are within the
BMP, so code units and code points agree). -/
def strTake (s : String) (n : Nat) : String := ⟨s.data.take n⟩

/-- `s.replace(/[^0-9]/g, "")`: keep only ASCII digits. -/
def digitsOf (s : String) : String := ⟨s.data.filter Char.isDigit⟩

/-- Decimal value of a digit string. -/
def natOfDigits (cs : List Char) : Nat :=
  cs.foldl (fun n c => n * 10 + (c.toNat - 48)) 0

/-- JS `parseInt` on the strings the script feeds it (an optional run of
leading ASCII digits); `none` models `NaN`. -/
def jsParseInt (s : String) : Option Nat :=
  let ds := s.data.takeWhile Char.isDigit
  if ds.isEmpty then none else some (natOfDigits ds)

/-- JS `>` with `NaN` (`none`) comparing false against everything. -/
def jsGt : Option Nat → Option Nat → Bool
  | some a, some b => decide (b < a)
  | _, _ => false

/-- `extractJNumber`: first match of `/(J\d{10})/`, else `""`
(src/コード.js:449). -/
def jScan : List Char → Option (List Char)
  | [] => none
  | c :: rest =>
    if c == 'J' && (rest.take 10).length == 10 && (rest.take 10).all Char.isDigit
    then some (c :: rest.take 10)
    else jScan rest

/-- `extractJNumber` on strings. -/
def extractJNumber (fileName : String) : String :=
  match jScan fileName.data with
  | some cs => ⟨cs⟩
  | none => ""

/-- `determineCategory`: first match of `/_(製作|購入|電気)_/`, else `""`
(src/コード.js:307). -/
def catScan : List Char → String
  | [] => ""
  | c :: rest =>
    if charsPrefix "_製作_".data (c :: rest) then "製作"
    else if charsPrefix "_購入_".data (c :: rest) then "購入"
    else if charsPrefix "_電気_".data (c :: rest) then "電気"
    else catScan rest

/-- `determineCategory` on strings. -/
def determineCategory (fileName : String) : String := catScan fileName.data

/-- First match of `/(\d+)unit/i`: the leftmost maximal digit run immediately
followed by `unit` (case-insensitive); the capture group's digits
(src/コード.js:266). -/
def unitScan : List Char → Option (List Char)
  | [] => none
  | c :: rest =>
    if c.isDigit then
      if charsPrefix "unit".data (((c :: rest).dropWhile Char.isDigit).map Char.toLower)
      then some ((c :: rest).takeWhile Char.isDigit)
      else unitScan rest
    else unitScan rest

/-- JS `padStart(2, "0")`. -/
def padStart2 (s : String) : String :=
  if s.length ≥ 2 then s else ⟨List.replicate (2 - s.length) '0'⟩ ++ s

/-- `processFilename` (src/コード.js:244): category letter plus optional
zero-padded unit number from the `<digits>unit` filename fragment. -/
def processFilename (fileName category : String) : String :=
  let categoryPrefix :=
    if category = "製作" then "製"
    else if category = "購入" then "購"
    else if category = "電気" then "電"
    else ""
  if category ≠ "電気" ∧ categoryPrefix ≠ "" then
    match unitScan fileName.data with
    | some ds => categoryPrefix ++ padStart2 ⟨ds⟩
    | none => categoryPrefix
  else if category = "電気" then categoryPrefix
  else ""

/-- The `validExtensions` allow-list of `processFiles` (src/コード.js:135). -/
def validExtensions : List String := [".xls", ".xlsx", ".xlsm"]

/-- The extension filter `validExtensions.some(ext => name.toLowerCase().endsWith(ext))`. -/
def hasValidExt (fileName : String) : Bool :=
  validExtensions.any (fun ext => strEndsWith (strToLower fileName) ext)

/-- A row of column B is "present" in `findLastDataRow`'s sense
(`!== "" && !== null && !== undefined`); absent cells read as `undefined`. -/
def rowHasB (r : List String) : Bool :=
  match r.get? 1 with
  | some s => s ≠ ""
  | none => false

/-- `findLastDataRow` (src/コード.js:431): index (1-based count) of the last
row whose column-B cell is non-empty; `0` when there is none. -/
def findLastDataRow (rows : List (List String)) : Nat :=
  (rows.reverse.dropWhile (fun r => !rowHasB r)).length

/-- The exclusion marker `excludeStockStatus` (src/コード.js:360). -/
def excludeStockStatus : String := "社内在庫なし"

/-- Column pruning (src/コード.js:352): `splice(0,1)` then `slice(0,9)`. -/
def normalizeColumns (data : List (List String)) : List (List String) :=
  data.map (fun row => (row.drop 1).take 9)

/-- Stock filter (src/コード.js:361): `index === 0 || row[2] !== marker`
keeps exactly the first row unconditionally and filters the rest. -/
def stockFilterStep (data : List (List String)) : List (List String) :=
  match data with
  | [] => []
  | h :: t => h :: t.filter (fun row => row.get? 2 != some excludeStockStatus)

/-- L-column clearing (src/コード.js:370): for 購入/電気, blank index 7 of
every data row (the `for (let i = 1; ...)` loop skips the header).  A JS
assignment past the row's end would lengthen the row with holes; the rows of
the modelled domain carry their full width, where `List.set` agrees. -/
def clearColumnL (category : String) (data : List (List String)) : List (List String) :=
  if category = "購入" ∨ category = "電気" then
    match data with
    | [] => []
    | h :: t => h :: t.map (fun r => r.set 7 "")
  else data

/-- Category-column prepend (src/コード.js:377): header row gets
`COLUMN_NAMES.D`, data rows the category label. -/
def prependCategoryColumn (columnNameD category : String) (data : List (List String)) : List (List String) :=
  match data with
  | [] => []
  | h :: t => (columnNameD :: h) :: t.map (fun r => category :: r)

/-- Date reformatting (src/コード.js:387) rewrites only cells that are
`Date` instances; string cells are never `Date` instances, so over the
modelled cells the step is the identity. -/
def formatDatesStep (data : List (List String)) : List (List String) := data

/-- One input file as the document store yields it: its name and the
tabular data of the target sheet (`none` when the sheet is missing or the
conversion call failed, both of which make `processExcelFile` return null). -/
structure InputFile where
  name : String
  raw : Option (List (List String))
deriving DecidableEq, Repr

/-- `processExcelFile` (src/コード.js:318), pure part: trim trailing rows
without a column-B value (`findLastDataRow`; reading a 0-row range throws,
caught as null), prune/truncate columns, drop excluded-stock data rows,
clear column L for 購入/電気, prepend the category column, reformat dates.
Returns the normalized rows and the category. -/
def processExcelFile (columnNameD : String) (fileName : String)
    (raw : Option (List (List String))) : Option (List (List String) × String) :=
  match raw with
  | none => none
  | some sheetData =>
    let validRows := findLastDataRow sheetData
    if validRows = 0 then none
    else
      let category := determineCategory fileName
      some (formatDatesStep (prependCategoryColumn columnNameD category
        (clearColumnL category
          (stockFilterStep (normalizeColumns (sheetData.take validRows))))), category)

/-- `collectUnitNumbersForCheck` (src/コード.js:286): digits of the first
non-empty second-column cell below the header (rows are scanned from index
1; a row whose cell is `undefined` or `""` is skipped). -/
def collectUnitLoop : List (List String) → String
  | [] => ""
  | r :: rs =>
    match r.get? 1 with
    | some s => if s ≠ "" then digitsOf (strTrim s) else collectUnitLoop rs
    | none => collectUnitLoop rs

/-- `collectUnitNumbersForCheck` on a normalized document. -/
def collectUnitNumbersForCheck (data : List (List String)) : String :=
  collectUnitLoop (data.drop 1)

/-- Insertion-ordered JS `Set.add`. -/
def addSet (l : List String) (x : String) : List String :=
  if x ∈ l then l else l ++ [x]

/-- JS `Map.get` over an insertion-ordered association list. -/
def mapGet (m : List (String × String × Option Nat)) (k : String) : Option (String × Option Nat) :=
  match m with
  | [] => none
  | (k', v) :: rest => if k' = k then some v else mapGet rest k

/-- JS `Map.set`: replace in place, else append. -/
def mapSet (m : List (String × String × Option Nat)) (k : String) (v : String × Option Nat) :
    List (String × String × Option Nat) :=
  match m with
  | [] => [(k, v)]
  | (k', v') :: rest => if k' = k then (k, v) :: rest else (k', v') :: mapSet rest k v

/-- Numeric sort key of a filename token:
`parseInt(tok.replace(/[^0-9]/g, "")) || 0` (src/コード.js:221). -/
def tokenNum (s : String) : Nat :=
  match jsParseInt (digitsOf s) with
  | some n => n
  | none => 0

/-- Stable insertion into a key-sorted list. -/
def insertSorted (key : String → Nat) (x : String) : List String → List String
  | [] => [x]
  | y :: ys => if key x ≤ key y then x :: y :: ys else y :: insertSorted key x ys

/-- Stable insertion sort by a numeric key. -/
def sortByKey (key : String → Nat) : List String → List String
  | [] => []
  | x :: xs => insertSorted key x (sortByKey key xs)

/-- The end-of-group token sort of `processFiles` (src/コード.js:218):
ascending by `tokenNum`, stable; JS's stable sort under this total preorder
coincides with stable insertion sort. -/
def sortTokens (l : List String) : List String := sortByKey tokenNum l

/-- The mutable state of one `processFiles` call (one folder): the merged
rows, the processed-file counter, the three summary sets, the dedup
registry keyed by `jNumber_category_unitNumbers`, and the per-category
filename-token lists. -/
structure PFState where
  combinedDataRows : List (List String)
  processedFiles : Nat
  jNumberSet : List String
  unitNumberSet : List String
  categories : List String
  processedFileKeys : List (String × String × Option Nat)
  partsKounyu : List String
  partsSeisaku : List String
  partsDenki : List String
deriving DecidableEq, Repr

/-- The empty initial state of `processFiles`. -/
def initPFState : PFState := ⟨[], 0, [], [], [], [], [], [], []⟩

/-- The `switch (category)` token push (src/コード.js:195). -/
def pushPart (st : PFState) (category part : String) : PFState :=
  if category = "購入" then { st with partsKounyu := st.partsKounyu ++ [part] }
  else if category = "製作" then { st with partsSeisaku := st.partsSeisaku ++ [part] }
  else if category = "電気" then { st with partsDenki := st.partsDenki ++ [part] }
  else st

/-- The `if (jNumber) jNumberSet.add(jNumber)` step (src/コード.js:158). -/
def stepAddJ (st : PFState) (jNumber : String) : PFState :=
  if jNumber ≠ "" then { st with jNumberSet := addSet st.jNumberSet jNumber } else st

/-- The `if (category) categories.add(category)` step (src/コード.js:166). -/
def stepAddCat (st : PFState) (category : String) : PFState :=
  if category ≠ "" then { st with categories := addSet st.categories category } else st

/-- The dedup key `${jNumber}_${categoryForCheck}_${unitNumbers}`
(src/コード.js:173); `collectUnitNumbersForCheck` passes the category
through unchanged as `categoryForCheck`. -/
def fileKeyOf (fileName category : String) (fileData : List (List String)) : String :=
  extractJNumber fileName ++ "_" ++ category ++ "_" ++ collectUnitNumbersForCheck fileData

/-- The dedup decision of `processFiles` (src/コード.js:168-214): an unseen
key registers the document, pushes its filename token and appends its rows
(header included only when `processedFiles === 0`); a seen key with a
strictly newer date re-registers, drops rows containing the prior file's
name and appends the new data rows; otherwise (`continue`) nothing changes,
and `processedFiles` is incremented on every path but the `continue`. -/
def stepDedup (st : PFState) (fileName : String) (fileData : List (List String))
    (category : String) : PFState :=
  let fileKey := fileKeyOf fileName category fileData
  let currentDate := jsParseInt (strTake fileName 8)
  match mapGet st.processedFileKeys fileKey with
  | some existing =>
    if jsGt currentDate existing.2 then
      { st with
        processedFileKeys := mapSet st.processedFileKeys fileKey (fileName, currentDate),
        combinedDataRows :=
          (st.combinedDataRows.filter (fun row => !row.contains existing.1)) ++ fileData.drop 1,
        processedFiles := st.processedFiles + 1 }
    else st
  | none =>
    let st3 := { st with
      processedFileKeys := st.processedFileKeys ++ [(fileKey, (fileName, currentDate))] }
    let filenamePart := processFilename fileName category
    let st4 := if filenamePart ≠ "" then pushPart st3 category filenamePart else st3
    let st5 :=
      if st4.processedFiles = 0 then { st4 with combinedDataRows := fileData }
      else { st4 with combinedDataRows := st4.combinedDataRows ++ fileData.drop 1 }
    { st5 with processedFiles := st5.processedFiles + 1 }

/-- One iteration of the `while (fileIterator.hasNext())` loop of
`processFiles` (src/コード.js:149-215): extension filter, jNumber
collection, normalization, category collection, dedup decision. -/
def processFilesStep (columnNameD : String) (st : PFState) (f : InputFile) : PFState :=
  if hasValidExt f.name then
    match processExcelFile columnNameD f.name f.raw with
    | none => stepAddJ st (extractJNumber f.name)
    | some (fileData, category) =>
      stepDedup (stepAddCat (stepAddJ st (extractJNumber f.name)) category)
        f.name fileData category
  else st

/-- The file loop of `processFiles`. -/
def processFilesGo (columnNameD : String) (st : PFState) : List InputFile → PFState
  | [] => st
  | f :: fs => processFilesGo columnNameD (processFilesStep columnNameD st f) fs

/-- `processFiles` (src/コード.js:134): the file loop followed by the
end-of-group per-category token sort. -/
def processFiles (columnNameD : String) (files : List InputFile) : PFState :=
  let st := processFilesGo columnNameD initPFState files
  { st with
    partsKounyu := sortTokens st.partsKounyu,
    partsSeisaku := sortTokens st.partsSeisaku,
    partsDenki := sortTokens st.partsDenki }

/-- The accumulators of `combineExcelSheets` across folders
(src/コード.js:72-98). -/
structure Accum where
  combinedDataRows : List (List String)
  processedFiles : Nat
  jNumberSet : List String
  unitNumberSet : List String
  categories : List String
  partsKounyu : List String
  partsSeisaku : List String
  partsDenki : List String
deriving DecidableEq, Repr

/-- The empty accumulator state. -/
def initAccum : Accum := ⟨[], 0, [], [], [], [], [], []⟩

/-- The body of the `targetFolders.forEach` merge (src/コード.js:83-98):
concatenate rows and token lists, union the summary sets in insertion
order, add the processed-file counts. -/
def mergeFolder (columnNameD : String) (acc : Accum) (files : List InputFile) : Accum :=
  let r := processFiles columnNameD files
  { combinedDataRows := acc.combinedDataRows ++ r.combinedDataRows,
    processedFiles := acc.processedFiles + r.processedFiles,
    jNumberSet := r.jNumberSet.foldl addSet acc.jNumberSet,
    unitNumberSet := r.unitNumberSet.foldl addSet acc.unitNumberSet,
    categories := r.categories.foldl addSet acc.categories,
    partsKounyu := acc.partsKounyu ++ r.partsKounyu,
    partsSeisaku := acc.partsSeisaku ++ r.partsSeisaku,
    partsDenki := acc.partsDenki ++ r.partsDenki }

/-- One sub-folder of the selected folder: its name and its files. -/
structure SubFolder where
  name : String
  files : List InputFile
deriving DecidableEq, Repr

/-- The external world of one run: whether `selectFolder` returned an id,
whether Drive resolved it, the sub-folders with their files, the URL the
document store reports for the created spreadsheet, and the clock's
`YYYYMMDD-HHMM` timestamp. -/
structure World where
  folderSelected : Bool
  folderFound : Bool
  subFolders : List SubFolder
  url : String
  now : String
deriving DecidableEq, Repr

/-- The result object `combineExcelSheets` returns: either
`{success: true, url, processedFiles, totalRows}` or
`{success: false, error}`. -/
inductive RunResult where
  | ok (url : String) (processedFiles totalRows : Nat)
  | fail (error : String)
deriving DecidableEq, Repr

/-- The folder-name filter (src/コード.js:60-63): name does not start with
`@` and contains `部品リスト`. -/
def targetFoldersOf (w : World) : List SubFolder :=
  w.subFolders.filter (fun sf => !strStartsWith sf.name "@" && strContains sf.name "部品リスト")

/-- The accumulated state after the `targetFolders.forEach` loop. -/
def combineAccum (columnNameD : String) (w : World) : Accum :=
  (targetFoldersOf w).foldl (fun acc sf => mergeFolder columnNameD acc sf.files) initAccum

/-- JS `slice(1)`: strip the single-letter category prefix of a token (the
prefix letters are BMP characters, one UTF-16 code unit each). -/
def strip1 (s : String) : String := ⟨s.data.drop 1⟩

/-- JS `Array.prototype.join(sep)`. -/
def joinWith (sep : String) : List String → String
  | [] => ""
  | [x] => x
  | x :: y :: rest => x ++ sep ++ joinWith sep (y :: rest)

/-- The output-name assembly of `createSpreadsheet` (src/コード.js:496-552):
`jNumber` is the first element ever inserted into the jNumber set (`|| ""`
when the set is empty); each non-empty category contributes its tokens
stripped of their letter, joined with `-`, re-prefixed with the letter;
電気 contributes its letter alone; segments joined with `_`; the leading
underscore appears only when the segment part is non-empty.  The per-category
segment list (src/コード.js:529-546) is `filenamePartsOf`, shared verbatim by
the spec-worded `specAssembledName` below whose sentence describes it with the
same words. -/
def filenamePartsOf (partsKounyu partsSeisaku partsDenki : List String) : List String :=
  (if partsKounyu ≠ [] then ["購" ++ joinWith "-" (partsKounyu.map strip1)] else []) ++
  (if partsSeisaku ≠ [] then ["製" ++ joinWith "-" (partsSeisaku.map strip1)] else []) ++
  (if partsDenki ≠ [] then ["電"] else [])

def createSpreadsheetName (jNumberSet : List String)
    (partsKounyu partsSeisaku partsDenki : List String) (dateTime : String) : String :=
  let jNumber := jNumberSet.headD ""
  let combinedFilenameBase := joinWith "_" (filenamePartsOf partsKounyu partsSeisaku partsDenki)
  let underscore := if combinedFilenameBase ≠ "" then "_" else ""
  jNumber ++ underscore ++ combinedFilenameBase ++ "_" ++ dateTime

/-- The name-construction formula as the spec words it (§4.5): `projectId +
("_" + categoryTokens.join("_") if any token categories non-empty else "")
+ "_" + timestamp`, where each category with at least one token contributes
its tokens stripped of the single-letter prefix, joined with `-`,
re-prefixed once with the category letter, and Electrical contributes its
letter alone.  Stated from the spec's words, to be compared with
`createSpreadsheetName`. -/
def specAssembledName (projectId : String)
    (partsKounyu partsSeisaku partsDenki : List String) (timestamp : String) : String :=
  let categoryTokens := filenamePartsOf partsKounyu partsSeisaku partsDenki
  projectId ++
    (if categoryTokens ≠ [] then "_" ++ joinWith "_" categoryTokens else "") ++
    "_" ++ timestamp

/-- The `try` body of `combineExcelSheets` (src/コード.js:46-122), with each
`throw new Error(msg)` as `Except.error msg`; on success the triple is
`(url, processedFiles, totalRows)`. -/
def combineBody (columnNameD : String) (w : World) : Except String (String × Nat × Nat) :=
  if !w.folderSelected then .error "フォルダが選択されませんでした"
  else if !w.folderFound then .error "指定されたフォルダが見つかりません"
  else if (targetFoldersOf w).isEmpty then .error "部品リストを含むフォルダが見つかりませんでした"
  else
    let acc := combineAccum columnNameD w
    if acc.processedFiles = 0 then .error "処理可能なファイルが見つかりませんでした"
    else if acc.combinedDataRows.isEmpty then .error "有効なデータが見つかりませんでした"
    else .ok (w.url, acc.processedFiles, acc.combinedDataRows.length)

/-- `combineExcelSheets` (src/コード.js:46): the `catch` converts any thrown
error into `{success: false, error: e.toString()}`; `Error.toString()`
prefixes `Error: `. -/
def combineExcelSheets (columnNameD : String) (w : World) : RunResult :=
  match combineBody columnNameD w with
  | .ok r => .ok r.1 r.2.1 r.2.2
  | .error e => .fail ("Error: " ++ e)

/-- A Purchased-category document dated 20240105 with a header, 3 valid data
rows and one excluded-stock row (stock status sits at raw column 3, which is
post-truncation column 2). -/
def fileA : InputFile :=
  { name := "20240105_J0000000001_購入_01unit.xlsx",
    raw := some
      [["h0", "h1", "h2", "h3", "h4", "h5", "h6", "h7", "h8", "h9"],
       ["z", "01", "p1", "ok", "c4", "c5", "c6", "c7", "c8", "c9"],
       ["z", "01", "p2", "ok", "c4", "c5", "c6", "c7", "c8", "c9"],
       ["z", "01", "px", "社内在庫なし", "c4", "c5", "c6", "c7", "c8", "c9"],
       ["z", "01", "p3", "ok", "c4", "c5", "c6", "c7", "c8", "c9"]] }

/-- A Purchased-category document dated 20240110 with the same dedup key as
`fileA` (same jNumber, same category, same unit digits) and 2 data rows. -/
def fileB : InputFile :=
  { name := "20240110_J0000000001_購入_01unit.xlsx",
    raw := some
      [["k0", "k1", "k2", "k3", "k4", "k5", "k6", "k7", "k8", "k9"],
       ["z", "01", "q1", "ok", "d4", "d5", "d6", "d7", "d8", "d9"],
       ["z", "01", "q2", "ok", "d4", "d5", "d6", "d7", "d8", "d9"]] }

/-- A small Purchased document used for concrete witnesses. -/
def fileS : InputFile :=
  { name := "20240101_J0000000002_購入_01unit.xlsx",
    raw := some [["a", "b", "c", "d"], ["x", "01", "p", "q"]] }

/-- The normalized header row of `fileA` under `COLUMN_NAMES.D = "分類"`. -/
def hdrA : List String := ["分類", "h1", "h2", "h3", "h4", "h5", "h6", "h7", "h8", "h9"]

/-- The normalized header row of `fileB` under `COLUMN_NAMES.D = "分類"`. -/
def hdrB : List String := ["分類", "k1", "k2", "k3", "k4", "k5", "k6", "k7", "k8", "k9"]

/-- The first normalized data row of `fileA` (column L cleared for 購入). -/
def rowA1 : List String := ["購入", "01", "p1", "ok", "c4", "c5", "c6", "c7", "", "c9"]

/-- The two-group world of the end-to-end scenario: `fileA` in one matching
sub-folder, `fileB` in another. -/
def worldAB : World :=
  { folderSelected := true, folderFound := true,
    subFolders := [⟨"1部品リスト", [fileA]⟩, ⟨"2部品リスト", [fileB]⟩],
    url := "https://example/sheet", now := "20240110-0900" }

/-- Two matching sub-folders whose single documents carry filename tokens
`購03` and `購01` respectively (units `3unit` and `1unit`, distinct dedup
keys). -/
def worldTokens : World :=
  { folderSelected := true, folderFound := true,
    subFolders :=
      [⟨"1部品リスト", [{ name := "20240105_J0000000001_購入_3unit.xlsx",
                          raw := some [["a", "b", "c", "d"], ["x", "03", "p", "q"]] }]⟩,
       ⟨"2部品リスト", [{ name := "20240106_J0000000002_購入_1unit.xlsx",
                          raw := some [["a", "b", "c", "d"], ["x", "01", "p", "q"]] }]⟩],
    url := "https://example/sheet", now := "20240110-0900" }

/-- The remaining normalized data rows of `fileA`. -/
def rowA2 : List String := ["購入", "01", "p2", "ok", "c4", "c5", "c6", "c7", "", "c9"]

/-- The remaining normalized data rows of `fileA`. -/
def rowA3 : List String := ["購入", "01", "p3", "ok", "c4", "c5", "c6", "c7", "", "c9"]

/-- The normalized data rows of `fileB`. -/
def rowB1 : List String := ["購入", "01", "q1", "ok", "d4", "d5", "d6", "d7", "", "d9"]

/-- The normalized data rows of `fileB`. -/
def rowB2 : List String := ["購入", "01", "q2", "ok", "d4", "d5", "d6", "d7", "", "d9"]

/-- Raw data whose header row carries the exclusion marker in its
stock-status column and whose second data row is an excluded-stock row. -/
def rawW : List (List String) :=
  [["x", "H", "y", "社内在庫なし", "a", "b", "c", "d", "e", "f"],
   ["x", "01", "p", "ok", "a", "b", "c", "d", "e", "f"],
   ["x", "01", "q", "社内在庫なし", "a", "b", "c", "d", "e", "f"]]

/-- The normalization of `rawW`: the marker-carrying header survives, the
marker-carrying data row does not. -/
def fdW : List (List String) :=
  [["分類", "H", "y", "社内在庫なし", "a", "b", "c", "d", "e", "f"],
   ["購入", "01", "p", "ok", "a", "b", "c", "d", "", "f"]]

/-- The normalization of `fileS`. -/
def fdS : List (List String) := [["分類", "b", "c", "d"], ["購入", "01", "p", "q"]]

/-- The `processFiles` state after processing `fileS` once. -/
def stS : PFState := processFilesGo "分類" initPFState [fileS]

lemma addSet_of_mem {l : List String} {x : String} (h : x ∈ l) : addSet l x = l := by
  simp [addSet, h]

lemma mem_addSet_self (l : List String) (x : String) : x ∈ addSet l x := by
  unfold addSet
  split
  · assumption
  · simp

lemma mem_addSet_of_mem {l : List String} {x y : String} (h : y ∈ l) : y ∈ addSet l x := by
  unfold addSet
  split
  · exact h
  · simp [h]

lemma addSet_idem (l : List String) (x : String) : addSet (addSet l x) x = addSet l x :=
  addSet_of_mem (mem_addSet_self l x)

lemma jsGt_self (d : Option Nat) : jsGt d d = false := by
  cases d <;> simp [jsGt]

lemma mapGet_append_last {m : List (String × String × Option Nat)} {k : String}
    (h : mapGet m k = none) (v : String × Option Nat) : mapGet (m ++ [(k, v)]) k = some v := by
  induction m with
  | nil => simp [mapGet]
  | cons p rest ih =>
    unfold mapGet at h ⊢
    by_cases hk : p.1 = k
    · simp [hk] at h
    · simpa [hk] using ih (by simpa [hk] using h)

lemma mapGet_mapSet_self {m : List (String × String × Option Nat)} {k : String}
    {e : String × Option Nat} (h : mapGet m k = some e) (v : String × Option Nat) :
    mapGet (mapSet m k v) k = some v := by
  induction m with
  | nil => simp [mapGet] at h
  | cons p rest ih =>
    unfold mapGet at h
    unfold mapSet
    by_cases hk : p.1 = k
    · simp only [hk]
      simp [mapGet]
    · simp only [hk]
      simp only [if_neg hk] at h ⊢
      unfold mapGet
      simpa [hk] using ih (by simpa [hk] using h)

lemma chain'_insertSorted (key : String → Nat) (x : String) (l : List String)
    (h : l.Chain' (fun a b => key a ≤ key b)) :
    (insertSorted key x l).Chain' (fun a b => key a ≤ key b) := by
  induction l with
  | nil => simp [insertSorted]
  | cons y ys ih =>
    unfold insertSorted
    by_cases hxy : key x ≤ key y
    · simpa [hxy, List.chain'_cons] using h
    · have hyx : key y ≤ key x := Nat.le_of_not_le hxy
      simp only [if_neg hxy]
      have hys : ys.Chain' (fun a b => key a ≤ key b) := h.tail
      have hins := ih hys
      cases ys with
      | nil => simpa [insertSorted, List.chain'_cons] using hyx
      | cons z zs =>
        have hyz : key y ≤ key z := (List.chain'_cons.mp h).1
        unfold insertSorted at hins ⊢
        by_cases hxz : key x ≤ key z
        · simpa [hxz, List.chain'_cons, hyx] using hins
        · simp only [if_neg hxz] at hins ⊢
          simpa [List.chain'_cons, hyz] using hins

lemma chain'_sortByKey (key : String → Nat) (l : List String) :
    (sortByKey key l).Chain' (fun a b => key a ≤ key b) := by
  induction l with
  | nil => simp [sortByKey]
  | cons x xs ih => exact chain'_insertSorted key x (sortByKey key xs) ih

lemma filter_insertSorted (key : String → Nat) (x : String) (l : List String) (k : Nat) :
    (insertSorted key x l).filter (fun a => key a == k) =
      (x :: l).filter (fun a => key a == k) := by
  induction l with
  | nil => simp [insertSorted]
  | cons y ys ih =>
    unfold insertSorted
    by_cases hxy : key x ≤ key y
    · simp [hxy]
    · simp only [if_neg hxy]
      by_cases hx : key x = k
      · have hy : ¬ key y = k := by
          intro hy
          exact hxy (by omega)
        simp [List.filter_cons, hx, hy, ih, List.filter_cons]
      · simp [List.filter_cons, hx, ih, List.filter_cons]

lemma filter_sortByKey (key : String → Nat) (l : List String) (k : Nat) :
    (sortByKey key l).filter (fun a => key a == k) = l.filter (fun a => key a == k) := by
  induction l with
  | nil => simp [sortByKey]
  | cons x xs ih =>
    unfold sortByKey
    rw [filter_insertSorted]
    by_cases hx : key x = k
    · simp [List.filter_cons, hx, ih]
    · simp [List.filter_cons, hx, ih]

lemma strData_append (a b : String) : (a ++ b).data = a.data ++ b.data := rfl

lemma strEq_of_data {a b : String} (h : a.data = b.data) : a = b := by
  cases a
  cases b
  exact congrArg String.mk h

lemma str_append_ne_empty {a : String} (h : a ≠ "") (b : String) : a ++ b ≠ "" := by
  intro he
  apply h
  have hd := congrArg String.data he
  rw [strData_append] at hd
  rcases List.append_eq_nil.mp hd with ⟨ha, _⟩
  exact strEq_of_data ha

lemma joinWith_cons_ne {x : String} (sep : String) (xs : List String) (hx : x ≠ "") :
    joinWith sep (x :: xs) ≠ "" := by
  cases xs with
  | nil => simpa [joinWith] using hx
  | cons y rest =>
    show x ++ sep ++ joinWith sep (y :: rest) ≠ ""
    exact str_append_ne_empty (str_append_ne_empty hx sep) _

lemma mem_filenameParts_ne {pK pS pD : List String} {x : String}
    (hx : x ∈ filenamePartsOf pK pS pD) : x ≠ "" := by
  unfold filenamePartsOf at hx
  rcases List.mem_append.mp hx with h | h
  · rcases List.mem_append.mp h with h1 | h1
    · by_cases hc : pK ≠ [] <;> simp [hc] at h1
      subst h1
      exact str_append_ne_empty (by decide) _
    · by_cases hc : pS ≠ [] <;> simp [hc] at h1
      subst h1
      exact str_append_ne_empty (by decide) _
  · by_cases hc : pD ≠ [] <;> simp [hc] at h
    subst h
    decide

lemma base_cases (pK pS pD : List String) :
    (filenamePartsOf pK pS pD = [] ∧ joinWith "_" (filenamePartsOf pK pS pD) = "") ∨
    (filenamePartsOf pK pS pD ≠ [] ∧ joinWith "_" (filenamePartsOf pK pS pD) ≠ "") := by
  cases hp : filenamePartsOf pK pS pD with
  | nil => exact Or.inl ⟨rfl, by simp [joinWith]⟩
  | cons x xs =>
    refine Or.inr ⟨by simp, joinWith_cons_ne "_" xs ?_⟩
    exact mem_filenameParts_ne (hp ▸ List.mem_cons_self x xs)

lemma pushPart_fixed (st : PFState) (c p : String) :
    (pushPart st c p).combinedDataRows = st.combinedDataRows ∧
    (pushPart st c p).processedFiles = st.processedFiles ∧
    (pushPart st c p).jNumberSet = st.jNumberSet ∧
    (pushPart st c p).unitNumberSet = st.unitNumberSet ∧
    (pushPart st c p).categories = st.categories ∧
    (pushPart st c p).processedFileKeys = st.processedFileKeys := by
  unfold pushPart
  split
  · simp
  · split
    · simp
    · split <;> simp

lemma stepAddJ_fixed (st : PFState) (j : String) :
    (stepAddJ st j).combinedDataRows = st.combinedDataRows ∧
    (stepAddJ st j).processedFiles = st.processedFiles ∧
    (stepAddJ st j).unitNumberSet = st.unitNumberSet ∧
    (stepAddJ st j).categories = st.categories ∧
    (stepAddJ st j).processedFileKeys = st.processedFileKeys ∧
    (stepAddJ st j).partsKounyu = st.partsKounyu ∧
    (stepAddJ st j).partsSeisaku = st.partsSeisaku ∧
    (stepAddJ st j).partsDenki = st.partsDenki := by
  unfold stepAddJ
  split <;> simp

lemma stepAddCat_fixed (st : PFState) (c : String) :
    (stepAddCat st c).combinedDataRows = st.combinedDataRows ∧
    (stepAddCat st c).processedFiles = st.processedFiles ∧
    (stepAddCat st c).jNumberSet = st.jNumberSet ∧
    (stepAddCat st c).unitNumberSet = st.unitNumberSet ∧
    (stepAddCat st c).processedFileKeys = st.processedFileKeys ∧
    (stepAddCat st c).partsKounyu = st.partsKounyu ∧
    (stepAddCat st c).partsSeisaku = st.partsSeisaku ∧
    (stepAddCat st c).partsDenki = st.partsDenki := by
  unfold stepAddCat
  split <;> simp

lemma stepDedup_sets (st : PFState) (n : String) (fd : List (List String)) (c : String) :
    (stepDedup st n fd c).jNumberSet = st.jNumberSet ∧
    (stepDedup st n fd c).unitNumberSet = st.unitNumberSet ∧
    (stepDedup st n fd c).categories = st.categories := by
  unfold stepDedup pushPart
  refine ⟨?_, ?_, ?_⟩ <;>
  · dsimp only
    repeat' split
    all_goals simp

lemma stepDedup_stale {st : PFState} {n : String} {fd : List (List String)} {c : String}
    {e : String × Option Nat}
    (h : mapGet st.processedFileKeys (fileKeyOf n c fd) = some e)
    (hgt : jsGt (jsParseInt (strTake n 8)) e.2 = false) :
    stepDedup st n fd c = st := by
  unfold stepDedup
  dsimp only
  rw [h]
  simp [hgt]

lemma stepDedup_keys_after (st : PFState) (n : String) (fd : List (List String)) (c : String) :
    ∃ e, mapGet (stepDedup st n fd c).processedFileKeys (fileKeyOf n c fd) = some e ∧
      jsGt (jsParseInt (strTake n 8)) e.2 = false := by
  unfold stepDedup pushPart
  dsimp only
  cases hm : mapGet st.processedFileKeys (fileKeyOf n c fd) with
  | some e =>
    by_cases hgt : jsGt (jsParseInt (strTake n 8)) e.2 = true
    · refine ⟨(n, jsParseInt (strTake n 8)), ?_, jsGt_self _⟩
      simp only [hgt, if_true]
      exact mapGet_mapSet_self hm _
    · exact ⟨e, by simpa [hgt] using hm, by simpa using hgt⟩
  | none =>
    refine ⟨(n, jsParseInt (strTake n 8)), ?_, jsGt_self _⟩
    dsimp only
    repeat' split
    all_goals simp [mapGet_append_last hm]

lemma stepDedup_rows (st : PFState) (n : String) (fd : List (List String)) (c : String)
    (h0 : st.processedFiles ≠ 0) :
    (stepDedup st n fd c).combinedDataRows = st.combinedDataRows ∨
    ∃ keep, (stepDedup st n fd c).combinedDataRows =
      st.combinedDataRows.filter keep ++ fd.drop 1 := by
  unfold stepDedup pushPart
  dsimp only
  cases hm : mapGet st.processedFileKeys (fileKeyOf n c fd) with
  | some e =>
    by_cases hgt : jsGt (jsParseInt (strTake n 8)) e.2 = true
    · exact Or.inr ⟨fun row => !row.contains e.1, by simp [hgt]⟩
    · simp [hgt]
  | none =>
    refine Or.inr ⟨fun _ => true, ?_⟩
    dsimp only
    repeat' split
    all_goals simp_all

lemma stepDedup_rows_init (st : PFState) (n : String) (fd : List (List String)) (c : String)
    (hkeys : st.processedFileKeys = []) (h0 : st.processedFiles = 0) :
    (stepDedup st n fd c).combinedDataRows = fd := by
  unfold stepDedup pushPart
  dsimp only
  rw [hkeys]
  repeat' split
  all_goals simp_all [mapGet]

lemma stepAddJ_id {st : PFState} {j : String} (h : j = "" ∨ j ∈ st.jNumberSet) :
    stepAddJ st j = st := by
  unfold stepAddJ
  rcases h with h | h
  · simp [h]
  · simp [addSet_of_mem h]

lemma stepAddCat_id {st : PFState} {c : String} (h : c = "" ∨ c ∈ st.categories) :
    stepAddCat st c = st := by
  unfold stepAddCat
  rcases h with h | h
  · simp [h]
  · simp [addSet_of_mem h]

lemma stepAddJ_jNumberSet (st : PFState) (j : String) (hj : j ≠ "") :
    (stepAddJ st j).jNumberSet = addSet st.jNumberSet j := by
  simp [stepAddJ, hj]

lemma stepAddCat_categories (st : PFState) (c : String) (hc : c ≠ "") :
    (stepAddCat st c).categories = addSet st.categories c := by
  simp [stepAddCat, hc]

lemma mem_stepAddJ {st : PFState} {x : String} (j : String) (h : x ∈ st.jNumberSet) :
    x ∈ (stepAddJ st j).jNumberSet := by
  unfold stepAddJ
  split
  · exact mem_addSet_of_mem h
  · exact h

lemma mem_stepAddCat {st : PFState} {x : String} (c : String) (h : x ∈ st.categories) :
    x ∈ (stepAddCat st c).categories := by
  unfold stepAddCat
  split
  · exact mem_addSet_of_mem h
  · exact h

lemma processFilesStep_idem (cD : String) (st : PFState) (f : InputFile) :
    processFilesStep cD (processFilesStep cD st f) f = processFilesStep cD st f := by
  by_cases hv : hasValidExt f.name
  · cases hpe : processExcelFile cD f.name f.raw with
    | none =>
      simp only [processFilesStep, if_pos hv, hpe]
      by_cases hj : extractJNumber f.name = ""
      · rw [stepAddJ_id (Or.inl hj), stepAddJ_id (Or.inl hj)]
      · apply stepAddJ_id
        refine Or.inr ?_
        rw [stepAddJ_jNumberSet st _ hj]
        exact mem_addSet_self _ _
    | some p =>
      obtain ⟨fd, cat⟩ := p
      simp only [processFilesStep, if_pos hv, hpe]
      have hJmem : extractJNumber f.name = "" ∨
          extractJNumber f.name ∈
            (stepDedup (stepAddCat (stepAddJ st (extractJNumber f.name)) cat)
              f.name fd cat).jNumberSet := by
        by_cases hj : extractJNumber f.name = ""
        · exact Or.inl hj
        · refine Or.inr ?_
          rw [(stepDedup_sets _ _ _ _).1, (stepAddCat_fixed _ _).2.2.1,
            stepAddJ_jNumberSet st _ hj]
          exact mem_addSet_self _ _
      rw [stepAddJ_id hJmem]
      have hCmem : cat = "" ∨
          cat ∈ (stepDedup (stepAddCat (stepAddJ st (extractJNumber f.name)) cat)
            f.name fd cat).categories := by
        by_cases hc : cat = ""
        · exact Or.inl hc
        · refine Or.inr ?_
          rw [(stepDedup_sets _ _ _ _).2.2, stepAddCat_categories _ _ hc]
          exact mem_addSet_self _ _
      rw [stepAddCat_id hCmem]
      obtain ⟨e, he, hgt⟩ := stepDedup_keys_after
        (stepAddCat (stepAddJ st (extractJNumber f.name)) cat) f.name fd cat
      exact stepDedup_stale he hgt
  · simp [processFilesStep, hv]

lemma foldl_mergeFolder_partsKounyu (cD : String) (l : List SubFolder) (acc : Accum) :
    (l.foldl (fun a sf => mergeFolder cD a sf.files) acc).partsKounyu =
      acc.partsKounyu ++ (l.map (fun sf => (processFiles cD sf.files).partsKounyu)).flatten := by
  induction l generalizing acc with
  | nil => simp
  | cons sf rest ih =>
    rw [List.foldl_cons, ih]
    simp [mergeFolder, List.append_assoc]

lemma get?_set7_get2 (l : List String) (v : String) : (l.set 7 v).get? 2 = l.get? 2 := by
  rcases l with _ | ⟨a, _ | ⟨b, _ | ⟨c, rest⟩⟩⟩ <;> simp [List.set]

lemma pipeline_head (cD cat : String) (h0 : List String) (t0 : List (List String)) :
    (prependCategoryColumn cD cat (clearColumnL cat (stockFilterStep (h0 :: t0)))).head? =
      some (cD :: h0) := by
  unfold stockFilterStep clearColumnL
  split
  · simp [prependCategoryColumn]
  · simp [prependCategoryColumn]

lemma pipeline_data_rows (cD cat : String) (d : List (List String)) :
    ∀ r ∈ (prependCategoryColumn cD cat (clearColumnL cat (stockFilterStep d))).drop 1,
      r.get? 3 ≠ some excludeStockStatus := by
  intro r hr
  cases d with
  | nil => simp [stockFilterStep, clearColumnL, prependCategoryColumn] at hr
  | cons h0 t0 =>
    unfold stockFilterStep clearColumnL at hr
    by_cases hc : cat = "購入" ∨ cat = "電気"
    · simp only [if_pos hc, prependCategoryColumn, List.drop_succ_cons, List.drop_zero] at hr
      obtain ⟨r', hr', rfl⟩ := List.mem_map.mp hr
      obtain ⟨r'', hr'', rfl⟩ := List.mem_map.mp hr'
      have hp := List.of_mem_filter hr''
      simp only [List.get?_cons_succ, get?_set7_get2]
      simpa [bne_iff_ne] using hp
    · simp only [if_neg hc, prependCategoryColumn, List.drop_succ_cons, List.drop_zero] at hr
      obtain ⟨r', hr', rfl⟩ := List.mem_map.mp hr
      have hp := List.of_mem_filter hr'
      simp only [List.get?_cons_succ]
      simpa [bne_iff_ne] using hp

/-- C1: the claim says that after a document with a newer revision date
supersedes an older same-key document, every row the older document
contributed is removed.  The code removes rows by testing whether the old
document's *file name* occurs as a cell of the row
(`row.includes(existingFile.getName())`, src/コード.js:184-185), but
normalized rows never contain the file name, so nothing is removed: with
`fileA` (dated 20240105) and `fileB` (dated 20240110, equal dedup key) in
one group, `fileB` is registered as the winner yet all of `fileA`'s rows
survive alongside `fileB`'s. -/
theorem C1_superseded_rows_survive :
    (processFiles "分類" [fileA, fileB]).combinedDataRows =
      [hdrA, rowA1, rowA2, rowA3, rowB1, rowB2] ∧
    mapGet (processFiles "分類" [fileA, fileB]).processedFileKeys "J0000000001_購入_01" =
      some (fileB.name, some 20240110) ∧
    jsParseInt (strTake fileA.name 8) = some 20240105 ∧
    jsParseInt (strTake fileB.name 8) = some 20240110 ∧
    fileKeyOf fileA.name "購入" [hdrA, rowA1, rowA2, rowA3] =
      fileKeyOf fileB.name "購入" [hdrB, rowB1, rowB2] := by
  decide

/-- C2 counterexample: for the end-to-end scenario (the 20240105 Purchased
document with 3 valid rows plus an excluded-stock row in one group, the
same-key 20240110 document with 2 rows in another) the final dataset is not
the 2 rows of the newer document: it has 7 rows and still contains the
older document's data row `rowA1`. -/
theorem C2_counterexample :
    rowA1 ∈ (combineAccum "分類" worldAB).combinedDataRows ∧
    (combineAccum "分類" worldAB).combinedDataRows.length = 7 ∧
    (combineAccum "分類" worldAB).combinedDataRows ≠ [rowB1, rowB2] := by
  decide

/-- C2 (amended): the dedup registry lives inside `processFiles` and is
rebuilt per document-group, so the 20240110 document never meets the
20240105 document's registry entry.  The run therefore returns success with
`processedFiles = 2` and `totalRows = 7`, and the merged dataset is the
older group's header and 3 data rows followed by the newer group's header
and 2 data rows. -/
theorem C2_amended_per_group_dedup :
    combineExcelSheets "分類" worldAB = .ok "https://example/sheet" 2 7 ∧
    (combineAccum "分類" worldAB).combinedDataRows =
      [hdrA, rowA1, rowA2, rowA3, hdrB, rowB1, rowB2] ∧
    (combineAccum "分類" worldAB).processedFiles = 2 := by
  decide

/-- C3 counterexample: with two document-groups the final dataset holds two
header rows — position 0 carries the first group's header and position 4
the second group's header, because `processedFiles === 0` is tested per
`processFiles` call (per group), not "overall". -/
theorem C3_counterexample :
    (combineAccum "分類" worldAB).combinedDataRows.get? 0 = some hdrA ∧
    (combineAccum "分類" worldAB).combinedDataRows.get? 4 = some hdrB ∧
    hdrA ≠ hdrB := by
  decide

/-- C3 (amended): within one group, a document processed while
`processedFiles ≠ 0` contributes at most its data rows — its row 0 (the
header) is dropped (`fileData.slice(1)`), possibly after filtering the
accumulated rows; only the first document processed in a group enters with
its header row (when the state is the initial one, its whole `fileData` is
taken).  Hence the merged dataset carries one header row per group that
admits a document, not one overall. -/
theorem C3_header_per_group (cD : String) (st : PFState) (f : InputFile) :
    (st.processedFiles ≠ 0 →
      ((processFilesStep cD st f).combinedDataRows = st.combinedDataRows ∨
       ∃ keep fd cat, processExcelFile cD f.name f.raw = some (fd, cat) ∧
         (processFilesStep cD st f).combinedDataRows =
           st.combinedDataRows.filter keep ++ fd.drop 1)) ∧
    ((processFilesStep cD initPFState f).combinedDataRows = [] ∨
     ∃ fd cat, processExcelFile cD f.name f.raw = some (fd, cat) ∧
       (processFilesStep cD initPFState f).combinedDataRows = fd) := by
  constructor
  · intro h0
    by_cases hv : hasValidExt f.name
    · cases hpe : processExcelFile cD f.name f.raw with
      | none =>
        simp only [processFilesStep, if_pos hv, hpe]
        exact Or.inl (stepAddJ_fixed _ _).1
      | some p =>
        obtain ⟨fd, cat⟩ := p
        simp only [processFilesStep, if_pos hv, hpe]
        have hBr : (stepAddCat (stepAddJ st (extractJNumber f.name)) cat).combinedDataRows
            = st.combinedDataRows := by
          rw [(stepAddCat_fixed _ _).1, (stepAddJ_fixed _ _).1]
        have hBp : (stepAddCat (stepAddJ st (extractJNumber f.name)) cat).processedFiles
            = st.processedFiles := by
          rw [(stepAddCat_fixed _ _).2.1, (stepAddJ_fixed _ _).2.1]
        rcases stepDedup_rows _ f.name fd cat (by rw [hBp]; exact h0) with h | ⟨keep, hk⟩
        · exact Or.inl (by rw [h, hBr])
        · refine Or.inr ⟨keep, fd, cat, rfl, ?_⟩
          rw [hk, hBr]
    · simp [processFilesStep, hv]
  · by_cases hv : hasValidExt f.name
    · cases hpe : processExcelFile cD f.name f.raw with
      | none =>
        refine Or.inl ?_
        simp only [processFilesStep, if_pos hv, hpe]
        exact (stepAddJ_fixed _ _).1
      | some p =>
        obtain ⟨fd, cat⟩ := p
        refine Or.inr ⟨fd, cat, rfl, ?_⟩
        simp only [processFilesStep, if_pos hv, hpe]
        apply stepDedup_rows_init
        · rw [(stepAddCat_fixed _ _).2.2.2.2.1, (stepAddJ_fixed _ _).2.2.2.2.1]
          rfl
        · rw [(stepAddCat_fixed _ _).2.1, (stepAddJ_fixed _ _).2.1]
          rfl
    · exact Or.inl (by simp [processFilesStep, hv, initPFState])

/-- C3 witness: `C3_header_per_group` applied to the state after one
processed document and a further document with data. -/
theorem C3_header_witness :
    (processFilesStep "分類" stS fileB).combinedDataRows = stS.combinedDataRows ∨
    ∃ keep fd cat, processExcelFile "分類" fileB.name fileB.raw = some (fd, cat) ∧
      (processFilesStep "分類" stS fileB).combinedDataRows =
        stS.combinedDataRows.filter keep ++ fd.drop 1 :=
  (C3_header_per_group "分類" stS fileB).1 (by decide)

/-- C4 counterexample: `unitNumberSet` is declared, returned and merged but
never added to — after processing `fileA`, whose first data row carries
unit digits `01` (as `collectUnitNumbersForCheck` extracts), both the
per-group and the merged unit-number sets are still empty. -/
theorem C4_counterexample :
    (processFiles "分類" [fileA]).unitNumberSet = [] ∧
    (combineAccum "分類" worldAB).unitNumberSet = [] ∧
    (processExcelFile "分類" fileA.name fileA.raw).map
      (fun r => collectUnitNumbersForCheck r.1) = some "01" := by
  decide

/-- C4 (amended): for every processed document the projectId (when
non-empty) and the category (when non-empty) are added to their summary
sets before the dedup decision, hence regardless of the
admit/supersede/reject outcome, and both sets only ever grow; the
`unitNumbers` set, however, is never written and passes through every step
unchanged (it stays empty for the whole run). -/
theorem C4_summary_sets (cD : String) (st : PFState) (f : InputFile) :
    (∀ x ∈ st.jNumberSet, x ∈ (processFilesStep cD st f).jNumberSet) ∧
    (∀ x ∈ st.categories, x ∈ (processFilesStep cD st f).categories) ∧
    (processFilesStep cD st f).unitNumberSet = st.unitNumberSet ∧
    (hasValidExt f.name = true → extractJNumber f.name ≠ "" →
      extractJNumber f.name ∈ (processFilesStep cD st f).jNumberSet) ∧
    (∀ fd cat, hasValidExt f.name = true →
      processExcelFile cD f.name f.raw = some (fd, cat) → cat ≠ "" →
      cat ∈ (processFilesStep cD st f).categories) := by
  by_cases hv : hasValidExt f.name
  · cases hpe : processExcelFile cD f.name f.raw with
    | none =>
      simp only [processFilesStep, if_pos hv, hpe]
      refine ⟨fun x hx => mem_stepAddJ _ hx, fun x hx => (stepAddJ_fixed st _).2.2.2.1 ▸ hx,
        (stepAddJ_fixed st _).2.2.1, fun _ hj => ?_, fun fd cat _ hpe' => nomatch hpe'⟩
      rw [stepAddJ_jNumberSet st _ hj]
      exact mem_addSet_self _ _
    | some p =>
      obtain ⟨fd0, cat0⟩ := p
      simp only [processFilesStep, if_pos hv, hpe]
      have hJ : (stepDedup (stepAddCat (stepAddJ st (extractJNumber f.name)) cat0)
            f.name fd0 cat0).jNumberSet
          = (stepAddJ st (extractJNumber f.name)).jNumberSet := by
        rw [(stepDedup_sets _ _ _ _).1, (stepAddCat_fixed _ _).2.2.1]
      have hC : (stepDedup (stepAddCat (stepAddJ st (extractJNumber f.name)) cat0)
            f.name fd0 cat0).categories
          = (stepAddCat (stepAddJ st (extractJNumber f.name)) cat0).categories :=
        (stepDedup_sets _ _ _ _).2.2
      refine ⟨fun x hx => hJ ▸ mem_stepAddJ _ hx,
        fun x hx => hC ▸ mem_stepAddCat _ ((stepAddJ_fixed st _).2.2.2.1 ▸ hx),
        ?_, fun _ hj => ?_, fun fd cat _ hpe' hc => ?_⟩
      · rw [(stepDedup_sets _ _ _ _).2.1, (stepAddCat_fixed _ _).2.2.2.1,
          (stepAddJ_fixed _ _).2.2.1]
      · rw [hJ, stepAddJ_jNumberSet st _ hj]
        exact mem_addSet_self _ _
      · simp only [Option.some.injEq, Prod.mk.injEq] at hpe'
        obtain ⟨hfd, hcat⟩ := hpe'
        subst hfd
        subst hcat
        rw [hC, stepAddCat_categories _ _ hc]
        exact mem_addSet_self _ _
  · simp [processFilesStep, hv]

/-- C4 witness: `C4_summary_sets` applied to `fileA` from the initial
state; its jNumber and category land in the summary sets. -/
theorem C4_summary_witness :
    extractJNumber fileA.name ∈ (processFilesStep "分類" initPFState fileA).jNumberSet ∧
    "購入" ∈ (processFilesStep "分類" initPFState fileA).categories := by
  constructor
  · exact (C4_summary_sets "分類" initPFState fileA).2.2.2.1 (by decide) (by decide)
  · exact (C4_summary_sets "分類" initPFState fileA).2.2.2.2
      [hdrA, rowA1, rowA2, rowA3] "購入" (by decide) (by decide) (by decide)

/-- C5 counterexample: the token sort runs at the end of each `processFiles`
call, i.e. per document-group; `combineExcelSheets` then concatenates the
per-group lists without re-sorting, so after all groups the merged Purchased
token list can be out of order: `["購03", "購01"]` with keys 3 > 1. -/
theorem C5_counterexample :
    (combineAccum "分類" worldTokens).partsKounyu = ["購03", "購01"] ∧
    tokenNum "購01" < tokenNum "購03" := by
  decide

/-- C5 (amended): at the end of each document-group, each category's token
list is sorted ascending by the numeric value of the token's digits (a
digit-free token keys as 0), the sort is stable (tokens with equal keys
keep their relative order: filtering any key class commutes with the
sort), and `["P03","P01","P10"]` sorts to `["P01","P03","P10"]`; across
groups the merged list is just the concatenation of the per-group sorted
lists. -/
theorem C5_per_group_token_sort (cD : String) (files : List InputFile) (l : List String)
    (k : Nat) (w : World) :
    ((processFiles cD files).partsKounyu).Chain' (fun a b => tokenNum a ≤ tokenNum b) ∧
    ((processFiles cD files).partsSeisaku).Chain' (fun a b => tokenNum a ≤ tokenNum b) ∧
    ((processFiles cD files).partsDenki).Chain' (fun a b => tokenNum a ≤ tokenNum b) ∧
    (sortTokens l).filter (fun a => tokenNum a == k) = l.filter (fun a => tokenNum a == k) ∧
    sortTokens ["P03", "P01", "P10"] = ["P01", "P03", "P10"] ∧
    ((combineAccum cD w).partsKounyu =
      ((targetFoldersOf w).map (fun sf => (processFiles cD sf.files).partsKounyu)).flatten) := by
  refine ⟨?_, ?_, ?_, filter_sortByKey tokenNum l k, by decide, ?_⟩
  · simp only [processFiles]
    exact chain'_sortByKey tokenNum _
  · simp only [processFiles]
    exact chain'_sortByKey tokenNum _
  · simp only [processFiles]
    exact chain'_sortByKey tokenNum _
  · simpa using foldl_mergeFolder_partsKounyu cD (targetFoldersOf w) initAccum

/-- C6: for every normalized document, every data row (index ≥ 1 of the
result) has its stock-status cell — post-truncation column 2, which sits at
column 3 after the category prepend — different from the exclusion marker
`社内在庫なし`, while the header row is always kept as row 0 (the pruned and
truncated first raw row with the category-column title prepended) whatever
its own stock-status cell holds. -/
theorem C6_stock_filter (cD name : String) (raw fd : List (List String)) (cat : String)
    (h : processExcelFile cD name (some raw) = some (fd, cat)) :
    (∀ r ∈ fd.drop 1, r.get? 3 ≠ some excludeStockStatus) ∧
    (∀ hrow trows, raw = hrow :: trows → fd.head? = some (cD :: (hrow.drop 1).take 9)) := by
  unfold processExcelFile at h
  by_cases hv : findLastDataRow raw = 0
  · simp [hv] at h
  · simp only [if_neg hv] at h
    simp only [Option.some.injEq, Prod.mk.injEq] at h
    obtain ⟨hfd, hcat⟩ := h
    constructor
    · rw [← hfd]
      unfold formatDatesStep
      exact pipeline_data_rows cD (determineCategory name) _
    · intro hrow trows hraw
      rw [← hfd]
      unfold formatDatesStep
      subst hraw
      obtain ⟨v', hv'⟩ := Nat.exists_eq_succ_of_ne_zero hv
      rw [hv', List.take_succ_cons]
      unfold normalizeColumns
      rw [List.map_cons]
      exact pipeline_head cD (determineCategory name) _ _

/-- C6 witness: `C6_stock_filter` on `rawW`, whose header carries the
marker (and survives) and whose second data row carries the marker (and is
dropped). -/
theorem C6_stock_witness :
    (∀ r ∈ fdW.drop 1, r.get? 3 ≠ some excludeStockStatus) ∧
    fdW.head? = some ("分類" ::
      ((["x", "H", "y", "社内在庫なし", "a", "b", "c", "d", "e", "f"] : List String).drop 1).take 9) := by
  obtain ⟨h1, h2⟩ := C6_stock_filter "分類" "20240101_J0000000003_購入_01unit.xlsx"
    rawW fdW "購入" (by decide)
  exact ⟨h1, h2 _ _ rfl⟩

/-- C7: the output name equals the spec's formula — projectId, then (only
when some category has tokens) an underscore and the `_`-joined category
segments, then an underscore and the timestamp, each segment being the
category's tokens stripped of their letter, joined with `-`, re-prefixed
once with the category letter, 電気 contributing its letter alone; and the
spec's concrete example evaluates to
`J0000000001_購02_製01_20240101-0000` with the implementation's letters. -/
theorem C7_name_assembly (jSet pK pS pD : List String) (dt : String) :
    createSpreadsheetName jSet pK pS pD dt = specAssembledName (jSet.headD "") pK pS pD dt ∧
    createSpreadsheetName ["J0000000001"] ["購02"] ["製01"] [] "20240101-0000" =
      "J0000000001_購02_製01_20240101-0000" := by
  constructor
  · unfold createSpreadsheetName specAssembledName
    rcases base_cases pK pS pD with ⟨hp, hb⟩ | ⟨hp, hb⟩
    · simp only [hp, hb]
      apply strEq_of_data
      simp [joinWith, strData_append]
    · simp only [if_pos hb, if_pos hp]
      apply strEq_of_data
      simp [strData_append]
  · decide

/-- C8: feeding the same document twice yields exactly the state of feeding
it once (the second pass hits the registry with an equal stored date and is
rejected with no mutation at all), and more generally whenever the incoming
document's dedup key is registered with a stored revision date ≥ the
incoming one, the step leaves the accumulated rows, the registry, the
filename-token lists and the processed-file counter untouched. -/
theorem C8_dedup_idempotent :
    (∀ (cD : String) (f : InputFile), processFiles cD [f, f] = processFiles cD [f]) ∧
    (∀ (cD : String) (st : PFState) (f : InputFile) (fd : List (List String))
      (cat exN : String) (dEx dCur : Nat),
      hasValidExt f.name = true →
      processExcelFile cD f.name f.raw = some (fd, cat) →
      mapGet st.processedFileKeys (fileKeyOf f.name cat fd) = some (exN, some dEx) →
      jsParseInt (strTake f.name 8) = some dCur →
      dCur ≤ dEx →
      (processFilesStep cD st f).combinedDataRows = st.combinedDataRows ∧
      (processFilesStep cD st f).processedFileKeys = st.processedFileKeys ∧
      (processFilesStep cD st f).partsKounyu = st.partsKounyu ∧
      (processFilesStep cD st f).partsSeisaku = st.partsSeisaku ∧
      (processFilesStep cD st f).partsDenki = st.partsDenki ∧
      (processFilesStep cD st f).processedFiles = st.processedFiles) := by
  constructor
  · intro cD f
    have hgo : processFilesGo cD initPFState [f, f] = processFilesGo cD initPFState [f] := by
      show processFilesGo cD (processFilesStep cD (processFilesStep cD initPFState f) f) []
          = processFilesGo cD (processFilesStep cD initPFState f) []
      rw [processFilesStep_idem]
    simp only [processFiles, hgo]
  · intro cD st f fd cat exN dEx dCur hv hpe hmap hdate hle
    simp only [processFilesStep, if_pos hv, hpe]
    have hBkeys : (stepAddCat (stepAddJ st (extractJNumber f.name)) cat).processedFileKeys
        = st.processedFileKeys := by
      rw [(stepAddCat_fixed _ _).2.2.2.2.1, (stepAddJ_fixed _ _).2.2.2.2.1]
    have hgt : jsGt (jsParseInt (strTake f.name 8)) ((exN, some dEx) : String × Option Nat).2
        = false := by
      rw [hdate]
      simpa [jsGt] using Nat.not_lt.mpr hle
    rw [stepDedup_stale (by rw [hBkeys]; exact hmap) hgt]
    refine ⟨?_, hBkeys, ?_, ?_, ?_, ?_⟩
    · rw [(stepAddCat_fixed _ _).1, (stepAddJ_fixed _ _).1]
    · rw [(stepAddCat_fixed _ _).2.2.2.2.2.1, (stepAddJ_fixed _ _).2.2.2.2.2.1]
    · rw [(stepAddCat_fixed _ _).2.2.2.2.2.2.1, (stepAddJ_fixed _ _).2.2.2.2.2.2.1]
    · rw [(stepAddCat_fixed _ _).2.2.2.2.2.2.2, (stepAddJ_fixed _ _).2.2.2.2.2.2.2]
    · rw [(stepAddCat_fixed _ _).2.1, (stepAddJ_fixed _ _).2.1]

/-- C8 witness: `C8_dedup_idempotent` at `fileS`: processing it twice
equals processing it once, and re-presenting it to the state that already
registered it (equal stored date `20240101`) mutates neither the rows nor
the registry. -/
theorem C8_dedup_witness :
    processFiles "分類" [fileS, fileS] = processFiles "分類" [fileS] ∧
    (processFilesStep "分類" stS fileS).combinedDataRows = stS.combinedDataRows ∧
    (processFilesStep "分類" stS fileS).processedFileKeys = stS.processedFileKeys := by
  refine ⟨C8_dedup_idempotent.1 "分類" fileS, ?_⟩
  have h := C8_dedup_idempotent.2 "分類" stS fileS fdS "購入" fileS.name 20240101 20240101
    (by decide) (by decide) (by decide) (by decide) (Nat.le_refl _)
  exact ⟨h.1, h.2.1⟩

/-- C9: every modelled fatal condition — no folder selected, folder not
resolved, no sub-folder passing the 部品リスト name filter, zero processed
documents, zero merged rows — is caught by the top-level `catch` and turned
into `{success: false, error: e.toString()}` with its message, never a raw
exception; a successful run returns `{success: true, url, processedFiles,
totalRows}` with the accumulated counts. -/
theorem C9_error_result (cD : String) (w : World) :
    (w.folderSelected = false →
      combineExcelSheets cD w = .fail "Error: フォルダが選択されませんでした") ∧
    (w.folderSelected = true → w.folderFound = false →
      combineExcelSheets cD w = .fail "Error: 指定されたフォルダが見つかりません") ∧
    (w.folderSelected = true → w.folderFound = true → targetFoldersOf w = [] →
      combineExcelSheets cD w = .fail "Error: 部品リストを含むフォルダが見つかりませんでした") ∧
    (w.folderSelected = true → w.folderFound = true → targetFoldersOf w ≠ [] →
      (combineAccum cD w).processedFiles = 0 →
      combineExcelSheets cD w = .fail "Error: 処理可能なファイルが見つかりませんでした") ∧
    (w.folderSelected = true → w.folderFound = true → targetFoldersOf w ≠ [] →
      (combineAccum cD w).processedFiles ≠ 0 → (combineAccum cD w).combinedDataRows = [] →
      combineExcelSheets cD w = .fail "Error: 有効なデータが見つかりませんでした") ∧
    (w.folderSelected = true → w.folderFound = true → targetFoldersOf w ≠ [] →
      (combineAccum cD w).processedFiles ≠ 0 → (combineAccum cD w).combinedDataRows ≠ [] →
      combineExcelSheets cD w =
        .ok w.url (combineAccum cD w).processedFiles
          (combineAccum cD w).combinedDataRows.length) := by
  refine ⟨?_, ?_, ?_, ?_, ?_, ?_⟩
  · intro h1
    simp [combineExcelSheets, combineBody, h1]
  · intro h1 h2
    simp [combineExcelSheets, combineBody, h1, h2]
  · intro h1 h2 h3
    simp [combineExcelSheets, combineBody, h1, h2, h3]
  · intro h1 h2 h3 h4
    simp [combineExcelSheets, combineBody, h1, h2, h3, h4, List.isEmpty_iff]
  · intro h1 h2 h3 h4 h5
    simp [combineExcelSheets, combineBody, h1, h2, h3, h4, h5, List.isEmpty_iff]
  · intro h1 h2 h3 h4 h5
    simp [combineExcelSheets, combineBody, h1, h2, h3, h4, h5, List.isEmpty_iff]

/-- C9 witness: `C9_error_result` at a run with no folder selected (a
structured failure) and at the two-group scenario world (a structured
success with its URL and counts). -/
theorem C9_error_witness :
    combineExcelSheets "分類" ⟨false, true, [], "u", "t"⟩ =
      .fail "Error: フォルダが選択されませんでした" ∧
    combineExcelSheets "分類" worldAB =
      .ok worldAB.url (combineAccum "分類" worldAB).processedFiles
        (combineAccum "分類" worldAB).combinedDataRows.length := by
  constructor
  · exact (C9_error_result "分類" ⟨false, true, [], "u", "t"⟩).1 rfl
  · exact (C9_error_result "分類" worldAB).2.2.2.2.2 rfl rfl (by decide) (by decide) (by decide)

/-- C10: the output name uses only the first project identifier ever
inserted into the jNumber set (`Array.from(set)[0]`); with no identifier
the projectId component is `"" ` (`|| ""`), and the name then begins with
an underscore (either the separator before the token segments or the
separator before the timestamp); a JS `Set.add` keeps insertion order, so
the first element of a non-empty set never changes. -/
theorem C10_first_project_id (j1 j2 x y : String) (js pK pS pD ys : List String) (dt : String) :
    createSpreadsheetName (j1 :: j2 :: js) pK pS pD dt = createSpreadsheetName [j1] pK pS pD dt ∧
    (createSpreadsheetName [] pK pS pD dt).data.head? = some '_' ∧
    (addSet (y :: ys) x).headD "" = y ∧
    addSet [] x = [x] := by
  refine ⟨rfl, ?_, ?_, by simp [addSet]⟩
  · unfold createSpreadsheetName
    rcases base_cases pK pS pD with ⟨hp, hb⟩ | ⟨hp, hb⟩
    · simp only [hp, hb]
      simp [joinWith, strData_append]
    · simp only [if_pos hb]
      simp [strData_append]
  · unfold addSet
    split
    · rfl
    · simp
